import Mathlib

/-!
Verification development for the Hate-server repository (two variants:
`src/index.js`, the diary/moderation board, and `src/server.js`, the
single-purpose posting board).  JavaScript values are embedded shallowly:
strings are Lean `String`s, millisecond clock values are `Int`, JS objects
used as string-keyed maps are association lists in insertion order, and
fallible external effects (file writes) are modelled by an explicit
success flag or by traces of filesystem operations.
-/

namespace HateServer

/-- The character class removed by `String.prototype.trim` in JavaScript
(ECMAScript WhiteSpace together with LineTerminator). -/
def jsWhitespace (c : Char) : Bool :=
  c.toNat = 0x9 || c.toNat = 0xA || c.toNat = 0xB || c.toNat = 0xC ||
  c.toNat = 0xD || c.toNat = 0x20 || c.toNat = 0xA0 || c.toNat = 0x1680 ||
  (0x2000 ≤ c.toNat && c.toNat ≤ 0x200A) ||
  c.toNat = 0x2028 || c.toNat = 0x2029 || c.toNat = 0x202F ||
  c.toNat = 0x205F || c.toNat = 0x3000 || c.toNat = 0xFEFF

/-- JavaScript `s.trim()`: drop leading and trailing whitespace. -/
def jsTrim (s : String) : String :=
  String.mk (((s.data.dropWhile (fun c => jsWhitespace c)).reverse.dropWhile
    (fun c => jsWhitespace c)).reverse)

/-- Replace the first list element satisfying `p` (JS `find` + in-place mutation). -/
def updateFirst (p : α → Bool) (f : α → α) : List α → List α
  | [] => []
  | x :: xs => if p x then f x :: xs else x :: updateFirst p f xs

/-- JS object property assignment `o[k] = v` on a string-keyed object in
insertion order: overwrite in place if the key exists, else append. -/
def objSet (k : String) (v : β) : List (String × β) → List (String × β)
  | [] => [(k, v)]
  | (k0, v0) :: rest => if k0 = k then (k, v) :: rest else (k0, v0) :: objSet k v rest

/-- A filesystem side effect performed by a save routine. -/
inductive FsOp where
  | mkdir (path : String)
  | write (path : String) (content : String)
  | rename (src dst : String)
deriving Repr, DecidableEq

/-- Following the spec's words ("writes to a temporary location in the same
directory, then performs a single atomic rename over the real path, so a
reader never observes a partially-written file"): a trace is an atomic save
of `real` when no write targets `real` itself and the trace ends with a
rename onto `real` from a path that the trace previously wrote. -/
def specAtomicSave (real : String) (ops : List FsOp) : Bool :=
  ops.all (fun op => match op with
    | .write p _ => p != real
    | _ => true) &&
  match ops.getLast? with
  | some (.rename tmp dst) =>
    dst == real && ops.any (fun op => match op with
      | .write p _ => p == tmp
      | _ => false)
  | _ => false

namespace Diary

/-- `sanitizeText` from src/index.js: strip carriage returns, cap the length. -/
def sanitizeText (s : String) (maxLen : Nat) : String :=
  String.mk ((s.data.filter (fun c => c ≠ '\r')).take maxLen)

/-- Loop body of `sanitizeTags` from src/index.js: `acc` holds the accepted
tags in reverse (it plays the role of both `out` and `seen`, which always
hold the same elements in the source). -/
def sanitizeTagsAux : List String → List String → List String
  | acc, [] => acc.reverse
  | acc, t :: ts =>
    let v := jsTrim (sanitizeText t 24)
    if v = "" then sanitizeTagsAux acc ts
    else if v ∈ acc then sanitizeTagsAux acc ts
    else if 12 ≤ acc.length + 1 then (v :: acc).reverse
    else sanitizeTagsAux (v :: acc) ts

/-- `sanitizeTags` from src/index.js: trim/cap each tag to 24 chars, drop
empties and duplicates, stop after 12 accepted tags. -/
def sanitizeTags (tags : List String) : List String := sanitizeTagsAux [] tags

/-- The `file` descriptor carried by attachment and verification requests. -/
structure FileDesc where
  name : String
  type : String
  size : Int
  dataUrl : String
deriving Repr, DecidableEq

structure Post where
  id : String
  authorId : String
  createdAt : String
  updatedAt : String
  body : String
deriving Repr, DecidableEq

/-- A thread as stored in db.json.  `likesByUser` maps a user id to the
`Date.parse` value of the stored ISO timestamp (`none` when the stored
string is unparseable, i.e. `Date.parse` is not finite). -/
structure Thread where
  id : String
  title : String
  tags : List String
  creatorId : String
  createdAt : String
  updatedAt : String
  hidden : Bool
  likesByUser : List (String × Option Int)
  posts : List Post
deriving Repr, DecidableEq

structure Attachment where
  id : String
  threadId : String
  postId : String
  requesterId : String
  status : String
  createdAt : String
  reviewedAt : String
  note : String
  file : FileDesc
deriving Repr, DecidableEq

structure VerifyRequest where
  id : String
  userId : String
  status : String
  createdAt : String
  reviewedAt : String
  note : String
  file : FileDesc
deriving Repr, DecidableEq

structure VerifiedEntry where
  verifiedAt : String
  requestId : String
deriving Repr, DecidableEq

structure DB where
  threads : List Thread
  attachments : List Attachment
  verifyRequests : List VerifyRequest
  verifiedUsers : List (String × VerifiedEntry)
deriving Repr, DecidableEq

/-- The result of `JSON.parse` on a db.json file: each collection may be
absent (or null / otherwise falsy), in which case `readDB` backfills it. -/
structure RawDB where
  threads : Option (List Thread)
  attachments : Option (List Attachment)
  verifyRequests : Option (List VerifyRequest)
  verifiedUsers : Option (List (String × VerifiedEntry))

/-- The possible states of the persisted db.json file as seen by `readDB`:
missing file, unreadable file, syntactically invalid JSON, or valid JSON. -/
inductive FileState where
  | absent
  | unreadable
  | invalidJson
  | valid (raw : RawDB)

def emptyDB : DB := ⟨[], [], [], []⟩

/-- `readDB` from src/index.js: read and parse db.json; on any failure
return the empty document, otherwise backfill missing collections. -/
def readDB : FileState → DB
  | .absent => emptyDB
  | .unreadable => emptyDB
  | .invalidJson => emptyDB
  | .valid raw =>
    { threads := raw.threads.getD []
      attachments := raw.attachments.getD []
      verifyRequests := raw.verifyRequests.getD []
      verifiedUsers := raw.verifiedUsers.getD [] }

/-- Responses of the two admin review handlers in src/index.js. -/
inductive ReviewResp where
  | notFound
  | alreadyReviewed
  | badAction
  | ok
deriving Repr, DecidableEq

/-- `POST /api/diary/admin/attachments/review` from src/index.js (after
admin authentication): look up the attachment, refuse re-review, refuse
unknown actions, else stamp status/note/reviewedAt. -/
def reviewAttachment (now : String) (db : DB) (attachmentId action note0 : String) :
    DB × ReviewResp :=
  let note := sanitizeText note0 800
  match db.attachments.find? (fun a => a.id == attachmentId) with
  | none => (db, .notFound)
  | some att =>
    if att.status ≠ "pending" then (db, .alreadyReviewed)
    else if action ≠ "approve" ∧ action ≠ "reject" then (db, .badAction)
    else
      let atts := updateFirst (fun a => a.id == attachmentId)
        (fun a => { a with
          status := if action = "approve" then "approved" else "rejected"
          note := note
          reviewedAt := now }) db.attachments
      ({ db with attachments := atts }, .ok)

/-- `POST /api/diary/admin/verify/review` from src/index.js (after admin
authentication): like attachment review, and on approve additionally
upsert the requester into `verifiedUsers`. -/
def reviewVerify (now : String) (db : DB) (requestId action note0 : String) :
    DB × ReviewResp :=
  let note := sanitizeText note0 800
  match db.verifyRequests.find? (fun v => v.id == requestId) with
  | none => (db, .notFound)
  | some vr =>
    if vr.status ≠ "pending" then (db, .alreadyReviewed)
    else if action ≠ "approve" ∧ action ≠ "reject" then (db, .badAction)
    else
      let vrs := updateFirst (fun v => v.id == requestId)
        (fun v => { v with
          status := if action = "approve" then "approved" else "rejected"
          note := note
          reviewedAt := now }) db.verifyRequests
      let db1 : DB := { db with verifyRequests := vrs }
      let vus := objSet vr.userId ⟨now, vr.id⟩ db1.verifiedUsers
      let db2 : DB :=
        if action = "approve" then { db1 with verifiedUsers := vus } else db1
      (db2, .ok)

/-- The DB file path of src/index.js, `path.join(process.cwd(), "data", "db.json")`,
relative to the working directory. -/
def DB_PATH : String := "data/db.json"

/-- The filesystem operations performed by `writeDB` from src/index.js:
`mkdirSync` on the parent directory, then `writeFileSync` straight onto
`DB_PATH` (no temporary file, no rename). -/
def writeDBOps (content : String) : List FsOp :=
  [.mkdir "data", .write DB_PATH content]

/-- The 31-day like-event retention horizon of src/index.js, in ms. -/
def horizonMs : Int := 31 * 24 * 60 * 60 * 1000

def dayMs : Int := 24 * 60 * 60 * 1000

/-- `pruneLikeEvents` from src/index.js: keep only entries whose stored
timestamp parses and is at or after `now - horizon`. -/
def pruneLikeEvents (now : Int) (t : Thread) : Thread :=
  { t with likesByUser := t.likesByUser.filter (fun e =>
      match e.2 with
      | some ms => decide (now - horizonMs ≤ ms)
      | none => false) }

/-- `likeCount` from src/index.js: number of parseable like stamps with
`now - t ≤ ms`. -/
def likeCount (now : Int) (t : Thread) (ms : Int) : Nat :=
  (t.likesByUser.filter (fun e =>
    match e.2 with
    | some tt => decide (now - tt ≤ ms)
    | none => false)).length

inductive LikeResp where
  | badRequest
  | okAlready
  | ok
deriving Repr, DecidableEq

/-- `POST /api/diary/threads/:id/like` from src/index.js, acting on the
thread found under the requested id (the 404 branch for a missing or
hidden thread is upstream of this).  `userId` is the already-sanitized
identity; `now` is `Date.now()` and `nowIso` the matching
`new Date().toISOString()`, whose `Date.parse` value is `now`. -/
def likeThread (now : Int) (nowIso : String) (userId : String) (t : Thread) :
    Thread × LikeResp :=
  if userId = "" then (t, .badRequest)
  else
    let t1 := pruneLikeEvents now t
    match t1.likesByUser.lookup userId with
    | some _ => (t1, .okAlready)
    | none =>
      ({ t1 with likesByUser := t1.likesByUser ++ [(userId, some now)]
                 updatedAt := nowIso }, .ok)

/-- First-occurrence de-duplication, as performed by building a JS `Set`
from a list and converting back: `seen` collects elements already kept. -/
def dedupFirst (seen : List String) : List String → List String
  | [] => []
  | x :: xs => if x ∈ seen then dedupFirst seen xs else x :: dedupFirst (x :: seen) xs

/-- The tag-merge computation of `PATCH /api/diary/threads/:id/tags`:
`Array.from(new Set([...existing, ...incoming])).slice(0, 12)`. -/
def mergeTags (existing incoming : List String) : List String :=
  (dedupFirst [] (existing ++ incoming)).take 12

inductive TagsResp where
  | notFound
  | serverError
  | ok (tags : List String)
deriving Repr, DecidableEq

/-- `PATCH /api/diary/threads/:id/tags` from src/index.js.  `writeOk` is
whether the final `writeDB` succeeds; the handler does not catch a write
failure, so the exception propagates (Express answers 500) and the
request-local mutated document is discarded (the persisted state is
unchanged). -/
def patchTags (nowIso : String) (db : DB) (id : String) (tags0 : List String)
    (writeOk : Bool) : DB × TagsResp :=
  let tags := sanitizeTags tags0
  match db.threads.find? (fun t => t.id == id) with
  | none => (db, .notFound)
  | some t =>
    if t.hidden then (db, .notFound)
    else
      let newTags := mergeTags t.tags tags
      let t1 := { t with tags := newTags, updatedAt := nowIso }
      let db1 := { db with threads := updateFirst (fun x => x.id == id) (fun _ => t1) db.threads }
      if writeOk then (db1, .ok newTags) else (db, .serverError)

/-- The per-thread summary computed by `threadSummary` in src/index.js. -/
structure Summary where
  id : String
  title : String
  tags : List String
  createdAt : String
  updatedAt : String
  postCount : Nat
  likeDay : Nat
  likeWeek : Nat
  likeMonth : Nat
deriving Repr, DecidableEq

/-- `threadSummary` from src/index.js: prune like events, then compute the
day/week/month window counts. -/
def threadSummary (now : Int) (t : Thread) : Summary :=
  let t1 := pruneLikeEvents now t
  { id := t1.id, title := t1.title, tags := t1.tags, createdAt := t1.createdAt,
    updatedAt := t1.updatedAt, postCount := t1.posts.length,
    likeDay := likeCount now t1 dayMs,
    likeWeek := likeCount now t1 (7 * dayMs),
    likeMonth := likeCount now t1 (30 * dayMs) }

/-- Sign of JS `b.localeCompare(a)` for the ASCII ISO-timestamp strings
compared by the thread sort: lexicographic comparison. -/
def localeCmp (b a : String) : Int :=
  if b < a then -1 else if a < b then 1 else 0

/-- `b.updatedAt || b.createdAt`: `createdAt` substitutes when `updatedAt`
is the empty string. -/
def tsOf (s : Summary) : String := if s.updatedAt = "" then s.createdAt else s.updatedAt

/-- `a[key]` for the three like-window sort keys of src/index.js. -/
def keyCount (key : String) (s : Summary) : Nat :=
  if key = "likeDay" then s.likeDay
  else if key = "likeWeek" then s.likeWeek
  else s.likeMonth

/-- The comparator passed to `threads.sort` in `GET /api/diary/threads`. -/
def threadCmp (key : String) (a b : Summary) : Int :=
  if key = "updatedAt" then localeCmp (tsOf b) (tsOf a)
  else
    let d : Int := (keyCount key b : Int) - (keyCount key a : Int)
    if d ≠ 0 then d else localeCmp (tsOf b) (tsOf a)

/-- The sort-key selection of `GET /api/diary/threads`. -/
def sortKey (sort : String) : String :=
  if sort = "like_day" then "likeDay"
  else if sort = "like_week" then "likeWeek"
  else if sort = "like_month" then "likeMonth"
  else "updatedAt"

/-- `GET /api/diary/threads` from src/index.js: summarize the non-hidden
threads and sort with `threadCmp` (JS `Array.prototype.sort` is a
comparison sort; modelled by `List.mergeSort` on `threadCmp ≤ 0`). -/
def listThreads (now : Int) (db : DB) (sort : String) : List Summary :=
  let threads := (db.threads.filter (fun t => !t.hidden)).map (threadSummary now)
  threads.mergeSort (fun a b => decide (threadCmp (sortKey sort) a b ≤ 0))

/-- The base64url alphabet character for a 6-bit value. -/
def b64Char (n : Nat) : Char :=
  if n < 26 then Char.ofNat (65 + n)
  else if n < 52 then Char.ofNat (97 + (n - 26))
  else if n < 62 then Char.ofNat (48 + (n - 52))
  else if n = 62 then '-' else '_'

/-- The 6-bit value of a base64url alphabet character, `none` for any
other character (Node's lenient decoder skips those). -/
def b64Val (c : Char) : Option Nat :=
  if 'A' ≤ c ∧ c ≤ 'Z' then some (c.toNat - 65)
  else if 'a' ≤ c ∧ c ≤ 'z' then some (c.toNat - 97 + 26)
  else if '0' ≤ c ∧ c ≤ '9' then some (c.toNat - 48 + 52)
  else if c = '-' then some 62
  else if c = '_' then some 63
  else none

/-- Unpadded base64url encoding of a byte list, as produced by
`Buffer.toString("base64url")`. -/
def b64Encode : List Nat → List Char
  | [] => []
  | [a] => [b64Char (a / 4), b64Char (a % 4 * 16)]
  | [a, b] => [b64Char (a / 4), b64Char (a % 4 * 16 + b / 16), b64Char (b % 16 * 4)]
  | a :: b :: c :: rest =>
    b64Char (a / 4) :: b64Char (a % 4 * 16 + b / 16) ::
      b64Char (b % 16 * 4 + c / 64) :: b64Char (c % 64) :: b64Encode rest

/-- Repack a list of 6-bit values into bytes, dropping a trailing
incomplete byte, as Node's base64 decoder does. -/
def b64Pack : List Nat → List Nat
  | [] => []
  | [_] => []
  | [a, b] => [a * 4 + b / 16]
  | [a, b, c] => [a * 4 + b / 16, b % 16 * 16 + c / 4]
  | a :: b :: c :: d :: rest =>
    (a * 4 + b / 16) :: (b % 16 * 16 + c / 4) :: (c % 4 * 64 + d) :: b64Pack rest

/-- Node's lenient base64url decoding, `Buffer.from(token, "base64url")`:
ignore characters outside the alphabet, then repack sextets into bytes. -/
def b64Decode (s : List Char) : List Nat := b64Pack (s.filterMap b64Val)

/-- Byte/string conversion for the token payloads (which are ASCII, where
UTF-8 is the identity on code points). -/
def strBytes (s : String) : List Nat := s.data.map Char.toNat

def bytesStr (bs : List Nat) : String := String.mk (bs.map Char.ofNat)

/-- JS `decoded.split(":")` over the character list. -/
def splitColon : List Char → List (List Char)
  | [] => [[]]
  | c :: rest =>
    if c = ':' then [] :: splitColon rest
    else
      match splitColon rest with
      | [] => [[c]]
      | g :: gs => (c :: g) :: gs

/-- The HMAC-SHA256 hex digest under the server secret,
`crypto.createHmac("sha256", ADMIN_TOKEN_SECRET).update(payload).digest("hex")`,
kept abstract as a function from payload to digest string. -/
structure Crypto where
  hmacHex : String → String

/-- `signAdminToken` from src/index.js, with the issuance timestamp string
(`Date.now().toString()`) as a parameter. -/
def signAdminToken (c : Crypto) (ts : String) : String :=
  let payload := "admin:" ++ ts
  let mac := c.hmacHex payload
  String.mk (b64Encode (strBytes (payload ++ ":" ++ mac)))

/-- `crypto.timingSafeEqual` over the byte buffers of two strings, inside
the `try` of `verifyAdminToken`: a length mismatch throws and is caught
(yielding `false`), otherwise the result is byte equality — in both cases
the handler's outcome is plain string equality. -/
def timingSafeEqStr (a b : String) : Bool := a == b

/-- `verifyAdminToken` from src/index.js. -/
def verifyAdminToken (c : Crypto) (token : String) : Bool :=
  let decoded := bytesStr (b64Decode token.data)
  match (splitColon decoded.data).map String.mk with
  | [role, ts, mac] =>
    if role ≠ "admin" then false
    else timingSafeEqStr mac (c.hmacHex (role ++ ":" ++ ts))
  | _ => false

end Diary

namespace Board

/-- The posts file path of src/server.js, `path.join(__dirname, "..", "data", "posts.json")`,
relative to the package root. -/
def DATA_PATH : String := "data/posts.json"

/-- The filesystem operations performed by `savePosts` from src/server.js:
ensure the data directory exists, write the temporary file, rename it
over the real path. -/
def savePostsOps (dirExists : Bool) (content : String) : List FsOp :=
  (if dirExists then [] else [.mkdir "data"]) ++
  [.write (DATA_PATH ++ ".tmp") content, .rename (DATA_PATH ++ ".tmp") DATA_PATH]

/-- A stored post of the single-purpose posting board (src/server.js). -/
structure BPost where
  id : Int
  ts : Int
  name : String
  mail : String
  body : String
deriving Repr, DecidableEq

/-- States of the persisted posts.json file as seen by `loadPosts`. -/
inductive PostsFileState where
  | absent
  | unreadable
  | invalidJson
  | validNonArray
  | valid (posts : List BPost)

/-- `loadPosts` from src/server.js: missing file, read/parse failure, or a
non-array parse all yield the empty list. -/
def loadPosts : PostsFileState → List BPost
  | .absent => []
  | .unreadable => []
  | .invalidJson => []
  | .validNonArray => []
  | .valid posts => posts

def MAX_POSTS : Nat := 300

/-- The control characters removed by `normalizeText` in src/server.js
(`[\u0000-\u0008\u000B\u000C\u000E-\u001F\u007F]`). -/
def stripControls (l : List Char) : List Char :=
  l.filter (fun c => !(c.toNat ≤ 0x8 || c.toNat = 0xB || c.toNat = 0xC ||
    (0xE ≤ c.toNat && c.toNat ≤ 0x1F) || c.toNat = 0x7F))

/-- `replace(/\r\n?/g, "\n")`: CRLF and lone CR both become LF. -/
def crToLf : List Char → List Char
  | [] => []
  | '\r' :: '\n' :: rest => '\n' :: crToLf rest
  | '\r' :: rest => '\n' :: crToLf rest
  | c :: rest => c :: crToLf rest

/-- `normalizeText` from src/server.js: normalize newlines, strip control
characters (keeping \n and \t), trim. -/
def normalizeText (s : String) : String :=
  jsTrim (String.mk (stripControls (crToLf s.data)))

inductive PostResp where
  | tooFast
  | emptyBody
  | tooLong
  | ok (p : BPost)
deriving Repr, DecidableEq

structure PostResult where
  posts : List BPost
  nextId : Int
  persisted : Bool
  resp : PostResp
deriving Repr, DecidableEq

/-- `POST /api/posts` from src/server.js.  `rlAllowed` is the outcome of
`canPost(ip)`, `now` is `Date.now()`, and `saveOk` is whether `savePosts`
succeeds — its failure is caught and deliberately ignored, so only the
`persisted` flag (whether the file was replaced) depends on it. -/
def createPost (rlAllowed : Bool) (now : Int) (name mail body : String)
    (posts : List BPost) (nextId : Int) (saveOk : Bool) : PostResult :=
  if !rlAllowed then ⟨posts, nextId, false, .tooFast⟩
  else
    let name1 := normalizeText name
    let mail1 := normalizeText mail
    let body1 := normalizeText body
    let finalName := if name1 ≠ "" then String.mk (name1.data.take 24) else "名無しさん"
    let finalMail := String.mk (mail1.data.take 40)
    let finalBody := String.mk (body1.data.take 800)
    if finalBody = "" then ⟨posts, nextId, false, .emptyBody⟩
    else if 800 < finalBody.length then ⟨posts, nextId, false, .tooLong⟩
    else
      let post : BPost := ⟨nextId, now, finalName, finalMail, finalBody⟩
      let posts1 := posts ++ [post]
      let posts2 := if MAX_POSTS < posts1.length
        then posts1.drop (posts1.length - MAX_POSTS) else posts1
      ⟨posts2, nextId + 1, saveOk, .ok post⟩

end Board

/-! ## Claims -/

/-- C3: `load()` is total: for every state of the persisted file (absent,
unreadable, invalid JSON, or valid JSON missing some collections) it never
raises and returns a document with every required collection present,
absent collections defaulted to empty — `readDB` in src/index.js, and
likewise `loadPosts` in src/server.js (where a non-array parse also
yields the empty list). -/
theorem c3_load_total :
    (Diary.readDB .absent = Diary.emptyDB ∧
     Diary.readDB .unreadable = Diary.emptyDB ∧
     Diary.readDB .invalidJson = Diary.emptyDB) ∧
    (∀ raw : Diary.RawDB,
      (Diary.readDB (.valid raw)).threads = raw.threads.getD [] ∧
      (Diary.readDB (.valid raw)).attachments = raw.attachments.getD [] ∧
      (Diary.readDB (.valid raw)).verifyRequests = raw.verifyRequests.getD [] ∧
      (Diary.readDB (.valid raw)).verifiedUsers = raw.verifiedUsers.getD []) ∧
    (Board.loadPosts .absent = [] ∧ Board.loadPosts .unreadable = [] ∧
     Board.loadPosts .invalidJson = [] ∧ Board.loadPosts .validNonArray = [] ∧
     ∀ ps, Board.loadPosts (.valid ps) = ps) :=
  ⟨⟨rfl, rfl, rfl⟩, fun _ => ⟨rfl, rfl, rfl, rfl⟩, rfl, rfl, rfl, rfl, fun _ => rfl⟩

/-- C2: `review` on a request whose status is not pending fails with
`already_reviewed` for every requested action (including approve and
reject) and leaves the document — hence the record's status, reviewedAt
and note — unchanged, for both the attachment and the verification
review handlers of src/index.js. -/
theorem c2_review_nonpending (now : String) (db : Diary.DB) (rid action note : String) :
    (∀ att, db.attachments.find? (fun a => a.id == rid) = some att →
      att.status ≠ "pending" →
      Diary.reviewAttachment now db rid action note = (db, .alreadyReviewed)) ∧
    (∀ vr, db.verifyRequests.find? (fun v => v.id == rid) = some vr →
      vr.status ≠ "pending" →
      Diary.reviewVerify now db rid action note = (db, .alreadyReviewed)) := by
  constructor
  · intro att hfind hstat
    simp only [Diary.reviewAttachment, hfind, hstat]
    simp [hstat]
  · intro vr hfind hstat
    simp only [Diary.reviewVerify, hfind, hstat]
    simp [hstat]

def fileW : Diary.FileDesc := ⟨"f.png", "image/png", 10, "data:image/png;base64,x"⟩

def attW : Diary.Attachment :=
  ⟨"A1", "T1", "P1", "U1", "approved", "2024-01-01", "2024-01-02", "n", fileW⟩

def vrW : Diary.VerifyRequest :=
  ⟨"V1", "U1", "rejected", "2024-01-01", "2024-01-02", "n", fileW⟩

def dbW : Diary.DB := ⟨[], [attW], [vrW], []⟩

theorem c2_review_nonpending_witness :
    Diary.reviewAttachment "2025-01-01" dbW "A1" "approve" "" = (dbW, .alreadyReviewed) ∧
    Diary.reviewVerify "2025-01-01" dbW "V1" "reject" "" = (dbW, .alreadyReviewed) :=
  ⟨(c2_review_nonpending "2025-01-01" dbW "A1" "approve" "").1 attW (by decide) (by decide),
   (c2_review_nonpending "2025-01-01" dbW "V1" "reject" "").2 vrW (by decide) (by decide)⟩

/-- On the success path of `POST /api/posts`, the stored list is the
pushed list truncated to its most recent `MAX_POSTS` entries. -/
theorem createPost_ok_posts (rlAllowed : Bool) (now : Int) (name mail body : String)
    (posts : List Board.BPost) (nextId : Int) (saveOk : Bool) (p : Board.BPost)
    (hok : (Board.createPost rlAllowed now name mail body posts nextId saveOk).resp = .ok p) :
    (Board.createPost rlAllowed now name mail body posts nextId saveOk).posts =
      (posts ++ [p]).drop (posts.length + 1 - Board.MAX_POSTS) := by
  simp only [Board.createPost] at hok
  split at hok
  · exact absurd hok (by simp)
  · rename_i h1
    split at hok
    · exact absurd hok (by simp)
    · rename_i h2
      split at hok
      · exact absurd hok (by simp)
      · rename_i h3
        simp only [Board.PostResp.ok.injEq] at hok
        have hposts : (Board.createPost rlAllowed now name mail body posts nextId saveOk).posts =
            (if Board.MAX_POSTS < (posts ++ [p]).length
             then (posts ++ [p]).drop ((posts ++ [p]).length - Board.MAX_POSTS)
             else posts ++ [p]) := by
          simp only [Board.createPost, if_neg h1, if_neg h2, if_neg h3, hok]
        rw [hposts]
        have hlen : (posts ++ [p]).length = posts.length + 1 := by
          simp
        split
        · rename_i h4
          rw [hlen]
        · rename_i h4
          have h0 : posts.length + 1 - Board.MAX_POSTS = 0 := by
            simp only [hlen, Board.MAX_POSTS] at *
            omega
          rw [h0, List.drop_zero]

/-- C9: after every successful post creation in src/server.js the stored
list holds at most `MAX_POSTS = 300` entries: it is exactly the pushed
list truncated to its 300 most recent (newest-last) elements, the oldest
silently discarded. -/
theorem c9_max_posts (rlAllowed : Bool) (now : Int) (name mail body : String)
    (posts : List Board.BPost) (nextId : Int) (saveOk : Bool) (p : Board.BPost)
    (hok : (Board.createPost rlAllowed now name mail body posts nextId saveOk).resp = .ok p) :
    (Board.createPost rlAllowed now name mail body posts nextId saveOk).posts.length ≤
      Board.MAX_POSTS ∧
    (Board.createPost rlAllowed now name mail body posts nextId saveOk).posts =
      (posts ++ [p]).drop (posts.length + 1 - Board.MAX_POSTS) := by
  have h := createPost_ok_posts rlAllowed now name mail body posts nextId saveOk p hok
  refine ⟨?_, h⟩
  rw [h]
  simp only [List.length_drop, List.length_append, List.length_cons, List.length_nil,
    Board.MAX_POSTS]
  omega

theorem c9_max_posts_witness :
    (Board.createPost true 0 "n" "" "hello" [] 1 true).resp = .ok ⟨1, 0, "n", "", "hello"⟩ ∧
    (Board.createPost true 0 "n" "" "hello" [] 1 true).posts.length ≤ Board.MAX_POSTS ∧
    (Board.createPost true 0 "n" "" "hello" [] 1 true).posts =
      List.drop (([] : List Board.BPost).length + 1 - Board.MAX_POSTS)
        (([] : List Board.BPost) ++ [(⟨1, 0, "n", "", "hello"⟩ : Board.BPost)]) :=
  ⟨by decide, c9_max_posts true 0 "n" "" "hello" [] 1 true ⟨1, 0, "n", "", "hello"⟩ (by decide)⟩

/-- C10: the `too_long` branch of `POST /api/posts` in src/server.js is
unreachable — the body is truncated to 800 characters before the length
check, so no input yields the `too_long` error — and a body that is empty
after normalization fails with the `empty` error (when the rate limiter
admits the request). -/
theorem c10_too_long_unreachable (rlAllowed : Bool) (now : Int) (name mail body : String)
    (posts : List Board.BPost) (nextId : Int) (saveOk : Bool) :
    (Board.createPost rlAllowed now name mail body posts nextId saveOk).resp ≠ .tooLong ∧
    (rlAllowed = true → Board.normalizeText body = "" →
      (Board.createPost rlAllowed now name mail body posts nextId saveOk).resp = .emptyBody) := by
  constructor
  · simp only [Board.createPost]
    split
    · simp
    · split
      · simp
      · split
        · rename_i hlong
          exfalso
          have hlong2 : 800 < ((Board.normalizeText body).data.take 800).length := hlong
          simp only [List.length_take] at hlong2
          omega
        · simp
  · intro hrl hempty
    simp only [Board.createPost, hrl, hempty]
    rfl

theorem c10_too_long_unreachable_witness :
    Board.normalizeText "  " = "" ∧
    (Board.createPost true 0 "" "" "  " [] 1 true).resp = .emptyBody :=
  ⟨by decide, (c10_too_long_unreachable true 0 "" "" "  " [] 1 true).2 rfl (by decide)⟩

/-- C1 counterexample: `writeDB` of src/index.js writes the serialized
document straight onto the real path — its filesystem trace contains a
direct write to `DB_PATH` and no rename, so the claimed
temp-write-then-atomic-rename shape fails for this `save`. -/
theorem c1_atomic_save_counterexample :
    specAtomicSave Diary.DB_PATH (Diary.writeDBOps "{}") = false := by decide

/-- C1 amended: only the single-purpose variant's `savePosts`
(src/server.js) installs the document atomically — it writes the
serialized posts to `posts.json.tmp` in the same directory and then
renames it over the real path — whereas the diary variant's `writeDB`
(src/index.js) writes the serialized document directly to the real path,
with no temporary file and no rename, so a reader of db.json can observe
a partially-written document. -/
theorem c1_atomic_save_amended (dirExists : Bool) (content : String) :
    specAtomicSave Board.DATA_PATH (Board.savePostsOps dirExists content) = true ∧
    specAtomicSave Diary.DB_PATH (Diary.writeDBOps content) = false := by
  constructor
  · cases dirExists <;> rfl
  · rfl

def threadW : Diary.Thread :=
  ⟨"T1", "t", ["b", "c"], "u", "2024-01-01", "2024-01-01", false, [], []⟩

def dbW2 : Diary.DB := ⟨[threadW], [], [], []⟩

/-- C7 counterexample: in src/index.js a `writeDB` failure is not caught.
On this concrete document the tag-merge handler's in-memory mutation
succeeds, yet with the persistence write failing the handler propagates
the exception (Express answers 500) instead of reporting success. -/
theorem c7_swallow_counterexample :
    (Diary.patchTags "2025-01-01" dbW2 "T1" ["a"] false).2 = .serverError ∧
    Diary.TagsResp.serverError ≠ .ok ["b", "c", "a"] := by
  constructor
  · decide
  · decide

/-- C7 amended: the best-effort-durability policy holds only in the
single-purpose posting variant: there a successful in-memory post
creation reports the same success and the same post list whether or not
`savePosts` succeeds (only the `persisted` flag differs, and the new post
stays in the list); in the diary variant a `writeDB` failure instead
propagates out of the handler (a server error), leaving the persisted
document unchanged. -/
theorem c7_swallow_amended (rlAllowed : Bool) (now : Int) (name mail body : String)
    (posts : List Board.BPost) (nextId : Int) (p : Board.BPost)
    (hok : (Board.createPost rlAllowed now name mail body posts nextId false).resp = .ok p) :
    ((Board.createPost rlAllowed now name mail body posts nextId false).resp =
      (Board.createPost rlAllowed now name mail body posts nextId true).resp ∧
     (Board.createPost rlAllowed now name mail body posts nextId false).posts =
      (Board.createPost rlAllowed now name mail body posts nextId true).posts ∧
     p ∈ (Board.createPost rlAllowed now name mail body posts nextId false).posts ∧
     (Board.createPost rlAllowed now name mail body posts nextId false).persisted = false) ∧
    (∀ nowIso (db : Diary.DB) id tags0 t,
      db.threads.find? (fun x => x.id == id) = some t → t.hidden = false →
      Diary.patchTags nowIso db id tags0 false = (db, .serverError)) := by
  constructor
  · have hsame : ∀ saveOk : Bool,
        (Board.createPost rlAllowed now name mail body posts nextId saveOk).resp =
          (Board.createPost rlAllowed now name mail body posts nextId false).resp ∧
        (Board.createPost rlAllowed now name mail body posts nextId saveOk).posts =
          (Board.createPost rlAllowed now name mail body posts nextId false).posts := by
      intro saveOk
      simp only [Board.createPost]
      split
      · exact ⟨rfl, rfl⟩
      · split
        · exact ⟨rfl, rfl⟩
        · split
          · exact ⟨rfl, rfl⟩
          · exact ⟨rfl, rfl⟩
    refine ⟨((hsame true).1).symm, ((hsame true).2).symm, ?_, ?_⟩
    · have h2 := createPost_ok_posts rlAllowed now name mail body posts nextId false p hok
      rw [h2]
      have hk : posts.length + 1 - Board.MAX_POSTS ≤ posts.length := by
        simp only [Board.MAX_POSTS]
        omega
      rw [List.drop_append_of_le_length hk]
      exact List.mem_append_right _ (List.mem_singleton.mpr rfl)
    · simp only [Board.createPost] at hok ⊢
      split at hok
      · exact absurd hok (by simp)
      · rename_i h1
        split at hok
        · exact absurd hok (by simp)
        · rename_i h2
          split at hok
          · exact absurd hok (by simp)
          · rename_i h3
            rw [if_neg h1, if_neg h2, if_neg h3]
  · intro nowIso db id tags0 t hfind hhid
    simp only [Diary.patchTags, hfind, hhid]
    simp [hhid]

theorem c7_swallow_amended_witness :
    (Board.createPost true 0 "n" "" "hi" [] 1 false).resp = .ok ⟨1, 0, "n", "", "hi"⟩ ∧
    (Board.createPost true 0 "n" "" "hi" [] 1 false).persisted = false ∧
    Diary.patchTags "2025-01-01" dbW2 "T1" ["a"] false = (dbW2, .serverError) :=
  ⟨by decide,
   ((c7_swallow_amended true 0 "n" "" "hi" [] 1 ⟨1, 0, "n", "", "hi"⟩ (by decide)).1).2.2.2,
   (c7_swallow_amended true 0 "n" "" "hi" [] 1 ⟨1, 0, "n", "", "hi"⟩ (by decide)).2
     "2025-01-01" dbW2 "T1" ["a"] threadW (by decide) (by decide)⟩

/-- Membership in `dedupFirst`: exactly the elements of the input that are
not in the seen set. -/
theorem mem_dedupFirst (x : String) :
    ∀ (l : List String) (seen : List String),
      x ∈ Diary.dedupFirst seen l ↔ x ∈ l ∧ x ∉ seen
  | [], seen => by simp [Diary.dedupFirst]
  | y :: ys, seen => by
    simp only [Diary.dedupFirst]
    split
    · rename_i hy
      rw [mem_dedupFirst x ys seen, List.mem_cons]
      by_cases hxy : x = y
      · subst hxy; simp [hy]
      · simp [hxy]
    · rename_i hy
      rw [List.mem_cons, mem_dedupFirst x ys (y :: seen), List.mem_cons, List.mem_cons]
      by_cases hxy : x = y
      · subst hxy; simp [hy]
      · simp [hxy]

/-- `dedupFirst` only depends on the seen set up to membership. -/
theorem dedupFirst_congr :
    ∀ (l : List String) (s t : List String),
      (∀ x, x ∈ s ↔ x ∈ t) → Diary.dedupFirst s l = Diary.dedupFirst t l
  | [], _, _, _ => rfl
  | y :: ys, s, t, h => by
    simp only [Diary.dedupFirst]
    by_cases hy : y ∈ s
    · rw [if_pos hy, if_pos ((h y).mp hy)]
      exact dedupFirst_congr ys s t h
    · rw [if_neg hy, if_neg (fun hc => hy ((h y).mpr hc))]
      rw [dedupFirst_congr ys (y :: s) (y :: t)
        (fun x => by rw [List.mem_cons, List.mem_cons, h x])]

theorem dedupFirst_append :
    ∀ (l₁ l₂ : List String) (s : List String),
      Diary.dedupFirst s (l₁ ++ l₂) =
        Diary.dedupFirst s l₁ ++ Diary.dedupFirst (l₁ ++ s) l₂
  | [], l₂, s => by simp [Diary.dedupFirst]
  | y :: ys, l₂, s => by
    simp only [List.cons_append, Diary.dedupFirst, List.append_eq]
    by_cases hy : y ∈ s
    · rw [if_pos hy, if_pos hy, dedupFirst_append ys l₂ s]
      congr 1
      refine dedupFirst_congr l₂ (ys ++ s) (y :: ys ++ s) (fun x => ?_)
      simp only [List.cons_append, List.mem_cons, List.mem_append]
      constructor
      · intro h; tauto
      · rintro (h | h | h)
        · subst h; exact Or.inr hy
        · exact Or.inl h
        · exact Or.inr h
    · rw [if_neg hy, if_neg hy, dedupFirst_append ys l₂ (y :: s), List.cons_append]
      congr 2
      refine dedupFirst_congr l₂ (ys ++ y :: s) (y :: ys ++ s) (fun x => ?_)
      simp only [List.cons_append, List.mem_cons, List.mem_append]
      tauto

theorem dedupFirst_eq_nil :
    ∀ (l : List String) (s : List String), (∀ x ∈ l, x ∈ s) → Diary.dedupFirst s l = []
  | [], _, _ => rfl
  | y :: ys, s, h => by
    simp only [Diary.dedupFirst, if_pos (h y (List.mem_cons_self y ys))]
    exact dedupFirst_eq_nil ys s (fun x hx => h x (List.mem_cons_of_mem _ hx))

theorem dedupFirst_eq_self :
    ∀ (l : List String) (s : List String), l.Nodup → (∀ x ∈ l, x ∉ s) →
      Diary.dedupFirst s l = l
  | [], _, _, _ => rfl
  | y :: ys, s, hnd, h => by
    simp only [Diary.dedupFirst, if_neg (h y (List.mem_cons_self y ys))]
    congr 1
    refine dedupFirst_eq_self ys (y :: s) (List.Nodup.of_cons hnd) (fun x hx => ?_)
    rw [List.mem_cons]
    rintro (rfl | hs)
    · exact (List.nodup_cons.mp hnd).1 hx
    · exact h x (List.mem_cons_of_mem _ hx) hs

theorem dedupFirst_nodup :
    ∀ (l : List String) (s : List String), (Diary.dedupFirst s l).Nodup
  | [], _ => List.nodup_nil
  | y :: ys, s => by
    simp only [Diary.dedupFirst]
    split
    · exact dedupFirst_nodup ys s
    · rw [List.nodup_cons]
      refine ⟨fun hmem => ?_, dedupFirst_nodup ys (y :: s)⟩
      exact ((mem_dedupFirst y ys (y :: s)).mp hmem).2 (List.mem_cons_self y s)

/-- Removing a prefix of the seen set is filtering the result. -/
theorem dedupFirst_filter :
    ∀ (l : List String) (s t : List String),
      Diary.dedupFirst (s ++ t) l =
        (Diary.dedupFirst t l).filter (fun x => !(decide (x ∈ s)))
  | [], _, _ => rfl
  | y :: ys, s, t => by
    simp only [Diary.dedupFirst]
    by_cases hyt : y ∈ t
    · rw [if_pos (List.mem_append_right s hyt), if_pos hyt]
      exact dedupFirst_filter ys s t
    · rw [if_neg hyt]
      by_cases hys : y ∈ s
      · rw [if_pos (List.mem_append_left t hys), List.filter_cons]
        rw [if_neg (by simp [hys])]
        rw [show Diary.dedupFirst (s ++ t) ys = Diary.dedupFirst (s ++ y :: t) ys from
          dedupFirst_congr ys (s ++ t) (s ++ y :: t) (fun x => by
            simp only [List.mem_append, List.mem_cons]
            constructor
            · intro h; tauto
            · rintro (h | h | h)
              · exact Or.inl h
              · subst h; exact Or.inl hys
              · exact Or.inr h)]
        exact dedupFirst_filter ys s (y :: t)
      · rw [if_neg (by simp only [List.mem_append]; tauto), List.filter_cons]
        rw [if_pos (by simp [hys])]
        congr 1
        rw [show Diary.dedupFirst (y :: (s ++ t)) ys = Diary.dedupFirst (s ++ y :: t) ys from
          dedupFirst_congr ys (y :: (s ++ t)) (s ++ y :: t) (fun x => by
            simp only [List.mem_append, List.mem_cons]
            tauto)]
        exact dedupFirst_filter ys s (y :: t)

/-- C6: tag merge preserves the order of the thread's existing tags,
appends the new tags in input order with case-sensitive duplicates
dropped, truncates to 12 entries, and is idempotent; in particular, on a
thread with tags `["b","c"]`, merging `["a","b"]` yields `["b","c","a"]`
(shown on the full PATCH handler). -/
theorem c6_tag_merge (e n : List String) :
    (Diary.patchTags "2025-01-02" dbW2 "T1" ["a", "b"] true).2 = .ok ["b", "c", "a"] ∧
    Diary.mergeTags (Diary.mergeTags e n) n = Diary.mergeTags e n ∧
    (e.Nodup → Diary.mergeTags e n =
      (e ++ (Diary.dedupFirst [] n).filter (fun x => !(decide (x ∈ e)))).take 12) := by
  refine ⟨by decide, ?_, ?_⟩
  · unfold Diary.mergeTags
    have hmem : ∀ x ∈ n, x ∈ Diary.dedupFirst [] (e ++ n) := by
      intro x hx
      rw [mem_dedupFirst]
      exact ⟨List.mem_append_right _ hx, by simp⟩
    by_cases hlen : (Diary.dedupFirst [] (e ++ n)).length ≤ 12
    · rw [List.take_of_length_le hlen, dedupFirst_append _ n []]
      rw [dedupFirst_eq_self _ [] (dedupFirst_nodup _ _) (by simp)]
      rw [dedupFirst_eq_nil n _ (fun x hx => List.mem_append_left _ (hmem x hx))]
      rw [List.append_nil, List.take_of_length_le hlen]
    · push_neg at hlen
      have h12 : ((Diary.dedupFirst [] (e ++ n)).take 12).length = 12 := by
        rw [List.length_take]
        omega
      rw [dedupFirst_append _ n []]
      rw [dedupFirst_eq_self _ []
        ((dedupFirst_nodup (e ++ n) []).sublist (List.take_sublist _ _)) (by simp)]
      rw [List.take_append_of_le_length (le_of_eq h12.symm)]
      rw [List.take_of_length_le (le_of_eq h12)]
  · intro hnd
    unfold Diary.mergeTags
    rw [dedupFirst_append e n [], dedupFirst_eq_self e [] hnd (by simp)]
    rw [dedupFirst_filter n e []]

theorem lookup_eq_none_of_not_mem {β : Type} :
    ∀ (l : List (String × β)) (u : String), u ∉ l.map Prod.fst → l.lookup u = none
  | [], _, _ => rfl
  | (k, w) :: rest, u, h => by
    simp only [List.map_cons, List.mem_cons, not_or] at h
    simp only [List.lookup]
    rw [show (u == k) = false from beq_eq_false_iff_ne.mpr h.1]
    exact lookup_eq_none_of_not_mem rest u h.2

/-- The first binding for `u` survives filtering when the predicate holds
on it. -/
theorem lookup_filter_pos {β : Type} (p : String × β → Bool) :
    ∀ (l : List (String × β)) (u : String) (v : β),
      l.lookup u = some v → p (u, v) = true →
      (l.filter p).lookup u = some v
  | [], u, v, hlook, _ => by simp [List.lookup] at hlook
  | (k, w) :: rest, u, v, hlook, hp => by
    simp only [List.lookup] at hlook
    rcases hbeq : u == k with _ | _
    · rw [hbeq] at hlook
      rw [List.filter_cons]
      split
      · simp only [List.lookup, hbeq]
        exact lookup_filter_pos p rest u v hlook hp
      · exact lookup_filter_pos p rest u v hlook hp
    · rw [hbeq] at hlook
      have hk : u = k := eq_of_beq hbeq
      subst hk
      cases hlook
      rw [List.filter_cons, if_pos hp]
      simp [List.lookup]

/-- With nodup keys, the unique binding for `u` disappears under a
predicate that rejects it. -/
theorem lookup_filter_neg {β : Type} (p : String × β → Bool) :
    ∀ (l : List (String × β)) (u : String) (v : β),
      (l.map Prod.fst).Nodup →
      l.lookup u = some v → p (u, v) = false →
      (l.filter p).lookup u = none
  | [], u, v, _, hlook, _ => by simp [List.lookup] at hlook
  | (k, w) :: rest, u, v, hnd, hlook, hp => by
    simp only [List.map_cons, List.nodup_cons] at hnd
    simp only [List.lookup] at hlook
    rcases hbeq : u == k with _ | _
    · rw [hbeq] at hlook
      rw [List.filter_cons]
      split
      · simp only [List.lookup, hbeq]
        exact lookup_filter_neg p rest u v hnd.2 hlook hp
      · exact lookup_filter_neg p rest u v hnd.2 hlook hp
    · rw [hbeq] at hlook
      have hk : u = k := eq_of_beq hbeq
      subst hk
      cases hlook
      rw [List.filter_cons, if_neg (by simp [hp])]
      refine lookup_eq_none_of_not_mem _ u (fun hmem => hnd.1 ?_)
      exact (List.Sublist.map Prod.fst (List.filter_sublist rest)).mem hmem

theorem lookup_append_of_none {β : Type} :
    ∀ (l₁ l₂ : List (String × β)) (u : String),
      l₁.lookup u = none → (l₁ ++ l₂).lookup u = l₂.lookup u
  | [], _, _, _ => rfl
  | (k, w) :: rest, l₂, u, h => by
    simp only [List.lookup] at h
    rcases hbeq : u == k with _ | _
    · rw [hbeq] at h
      simp only [List.cons_append, List.lookup, hbeq]
      exact lookup_append_of_none rest l₂ u h
    · rw [hbeq] at h
      cases h

/-- Pruning does not change any window count with a window inside the
retention horizon: every pruned event was already outside the window. -/
theorem likeCount_prune (now : Int) (t : Diary.Thread) (w : Int)
    (hw : w ≤ Diary.horizonMs) :
    Diary.likeCount now (Diary.pruneLikeEvents now t) w = Diary.likeCount now t w := by
  simp only [Diary.likeCount, Diary.pruneLikeEvents, List.filter_filter]
  congr 1
  apply List.filter_congr
  intro e _
  match e with
  | (k, none) => simp
  | (k, some tt) =>
    by_cases h : now - tt ≤ w
    · have h2 : now - Diary.horizonMs ≤ tt := by omega
      simp [h, h2]
    · simp [h]

/-- C5: a second like by the same identity within the 31-day horizon
reports "already liked" and leaves the identity's stored timestamp and
every in-horizon window count unchanged; a like whose previous event is
older than the horizon is pruned and recorded anew with the current
timestamp. -/
theorem c5_like_idempotent (now : Int) (nowIso : String) (u : String) (t : Diary.Thread)
    (tu : Int) (hu : u ≠ "")
    (hnd : (t.likesByUser.map Prod.fst).Nodup)
    (hlook : t.likesByUser.lookup u = some (some tu)) :
    (now - Diary.horizonMs ≤ tu →
      (Diary.likeThread now nowIso u t).2 = .okAlready ∧
      (Diary.likeThread now nowIso u t).1.likesByUser.lookup u = some (some tu) ∧
      (∀ w, w ≤ Diary.horizonMs →
        Diary.likeCount now (Diary.likeThread now nowIso u t).1 w =
          Diary.likeCount now t w)) ∧
    (tu < now - Diary.horizonMs →
      (Diary.likeThread now nowIso u t).2 = .ok ∧
      (Diary.likeThread now nowIso u t).1.likesByUser.lookup u = some (some now)) := by
  constructor
  · intro hfresh
    have hpos : (Diary.pruneLikeEvents now t).likesByUser.lookup u = some (some tu) := by
      apply lookup_filter_pos _ t.likesByUser u (some tu) hlook
      simp only [decide_eq_true_eq]
      exact hfresh
    refine ⟨?_, ?_, ?_⟩
    · simp only [Diary.likeThread, if_neg hu, hpos]
    · simp only [Diary.likeThread, if_neg hu, hpos]
    · intro w hw
      have hfst : (Diary.likeThread now nowIso u t).1 = Diary.pruneLikeEvents now t := by
        simp only [Diary.likeThread, if_neg hu, hpos]
      rw [hfst]
      exact likeCount_prune now t w hw
  · intro hstale
    have hneg : (Diary.pruneLikeEvents now t).likesByUser.lookup u = none := by
      apply lookup_filter_neg _ t.likesByUser u (some tu) hnd hlook
      simp only [decide_eq_false_iff_not]
      omega
    refine ⟨?_, ?_⟩
    · simp only [Diary.likeThread, if_neg hu, hneg]
    · have hfst : (Diary.likeThread now nowIso u t).1.likesByUser =
          (Diary.pruneLikeEvents now t).likesByUser ++ [(u, some now)] := by
        simp only [Diary.likeThread, if_neg hu, hneg]
      rw [hfst, lookup_append_of_none _ _ u hneg]
      simp [List.lookup]

def threadL : Diary.Thread :=
  ⟨"T2", "t", [], "u", "2024-01-01", "2024-01-01", false, [("u1", some 5)], []⟩

theorem c5_like_idempotent_witness :
    (Diary.likeThread 10 "2024-01-02" "u1" threadL).2 = .okAlready ∧
    (Diary.likeThread 10 "2024-01-02" "u1" threadL).1.likesByUser.lookup "u1" =
      some (some 5) :=
  have h := c5_like_idempotent 10 "2024-01-02" "u1" threadL 5 (by decide) (by decide)
    (by decide)
  ⟨(h.1 (by decide)).1, (h.1 (by decide)).2.1⟩

theorem localeCmp_le_iff (b a : String) : Diary.localeCmp b a ≤ 0 ↔ b ≤ a := by
  unfold Diary.localeCmp
  split
  · rename_i h
    exact iff_of_true (by omega) h.le
  · split
    · rename_i h1 h2
      exact iff_of_false (by omega) (not_le.mpr h2)
    · rename_i h1 h2
      exact iff_of_true (by omega) (not_lt.mp h2)

theorem threadCmp_le_iff (key : String) (hk : key ≠ "updatedAt") (a b : Diary.Summary) :
    Diary.threadCmp key a b ≤ 0 ↔
      (Diary.keyCount key b < Diary.keyCount key a ∨
       (Diary.keyCount key a = Diary.keyCount key b ∧ Diary.tsOf b ≤ Diary.tsOf a)) := by
  simp only [Diary.threadCmp, if_neg hk]
  by_cases hd : ((Diary.keyCount key b : Int) - (Diary.keyCount key a : Int)) ≠ 0
  · rw [if_pos hd]
    constructor
    · intro h
      left
      omega
    · rintro (h | ⟨h, _⟩) <;> omega
  · rw [if_neg hd]
    push_neg at hd
    rw [localeCmp_le_iff]
    constructor
    · intro h
      right
      exact ⟨by omega, h⟩
    · rintro (h | ⟨h1, h2⟩)
      · omega
      · exact h2

/-- C8: listing threads under a like-window sort key orders any two listed
(non-hidden) threads with distinct counts by larger count first, and any
two with equal counts by `updatedAt` descending (the comparator falls
back to `createdAt` only when `updatedAt` is the empty string, which
never holds for a code-created thread; hence the hypothesis). -/
theorem c8_sort_window (now : Int) (db : Diary.DB) (sort : String)
    (hsort : sort = "like_day" ∨ sort = "like_week" ∨ sort = "like_month")
    (hup : ∀ t ∈ db.threads, t.updatedAt ≠ "") :
    (Diary.listThreads now db sort).Pairwise (fun a b =>
      Diary.keyCount (Diary.sortKey sort) b < Diary.keyCount (Diary.sortKey sort) a ∨
      (Diary.keyCount (Diary.sortKey sort) a = Diary.keyCount (Diary.sortKey sort) b ∧
        b.updatedAt ≤ a.updatedAt)) := by
  have hmem : ∀ s ∈ Diary.listThreads now db sort, s.updatedAt ≠ "" := by
    intro s hs
    simp only [Diary.listThreads, List.mem_mergeSort, List.mem_map, List.mem_filter] at hs
    obtain ⟨t, ⟨ht, hhid⟩, rfl⟩ := hs
    simpa [Diary.threadSummary, Diary.pruneLikeEvents] using hup t ht
  have hts : ∀ s ∈ Diary.listThreads now db sort, Diary.tsOf s = s.updatedAt := by
    intro s hs
    exact if_neg (hmem s hs)
  refine List.Pairwise.imp_of_mem (fun {a b} ha hb hr => ?_) (?_ :
    (Diary.listThreads now db sort).Pairwise (fun a b =>
      Diary.keyCount (Diary.sortKey sort) b < Diary.keyCount (Diary.sortKey sort) a ∨
      (Diary.keyCount (Diary.sortKey sort) a = Diary.keyCount (Diary.sortKey sort) b ∧
        Diary.tsOf b ≤ Diary.tsOf a)))
  · rcases hr with h | ⟨h1, h2⟩
    · exact Or.inl h
    · refine Or.inr ⟨h1, ?_⟩
      rw [← hts a ha, ← hts b hb]
      exact h2
  have hk : Diary.sortKey sort ≠ "updatedAt" := by
    rcases hsort with h | h | h <;> subst h <;> decide
  have htrans : ∀ a b c : Diary.Summary,
      decide (Diary.threadCmp (Diary.sortKey sort) a b ≤ 0) →
      decide (Diary.threadCmp (Diary.sortKey sort) b c ≤ 0) →
      decide (Diary.threadCmp (Diary.sortKey sort) a c ≤ 0) := by
    intro a b c hab hbc
    rw [decide_eq_true_eq, threadCmp_le_iff _ hk] at hab hbc ⊢
    rcases hab with h1 | ⟨h1, h1ts⟩ <;> rcases hbc with h2 | ⟨h2, h2ts⟩
    · exact Or.inl (by omega)
    · exact Or.inl (by omega)
    · exact Or.inl (by omega)
    · exact Or.inr ⟨by omega, le_trans h2ts h1ts⟩
  have htotal : ∀ a b : Diary.Summary,
      (decide (Diary.threadCmp (Diary.sortKey sort) a b ≤ 0) ||
        decide (Diary.threadCmp (Diary.sortKey sort) b a ≤ 0)) = true := by
    intro a b
    rw [Bool.or_eq_true, decide_eq_true_eq, decide_eq_true_eq,
      threadCmp_le_iff _ hk, threadCmp_le_iff _ hk]
    rcases lt_trichotomy (Diary.keyCount (Diary.sortKey sort) a)
        (Diary.keyCount (Diary.sortKey sort) b) with h | h | h
    · exact Or.inr (Or.inl h)
    · rcases le_total (Diary.tsOf b) (Diary.tsOf a) with hts | hts
      · exact Or.inl (Or.inr ⟨h, hts⟩)
      · exact Or.inr (Or.inr ⟨h.symm, hts⟩)
    · exact Or.inl (Or.inl h)
  simp only [Diary.listThreads]
  exact (List.sorted_mergeSort htrans htotal _).imp
    (fun hab => (threadCmp_le_iff _ hk _ _).mp (of_decide_eq_true hab))

def threadC1 : Diary.Thread :=
  ⟨"A", "a", [], "u", "2024-01-01", "2024-01-03", false, [("u1", some 0)], []⟩

def threadC2 : Diary.Thread :=
  ⟨"B", "b", [], "u", "2024-01-01", "2024-01-02", false, [], []⟩

def dbC : Diary.DB := ⟨[threadC1, threadC2], [], [], []⟩

theorem c8_sort_window_witness :
    (Diary.listThreads 0 dbC "like_day").Pairwise (fun a b =>
      Diary.keyCount (Diary.sortKey "like_day") b < Diary.keyCount (Diary.sortKey "like_day") a ∨
      (Diary.keyCount (Diary.sortKey "like_day") a = Diary.keyCount (Diary.sortKey "like_day") b ∧
        b.updatedAt ≤ a.updatedAt)) :=
  c8_sort_window 0 dbC "like_day" (Or.inl rfl) (by decide)

theorem c6_tag_merge_witness :
    (["x", "y"] : List String).Nodup ∧
    Diary.mergeTags ["x", "y"] ["z"] =
      ((["x", "y"] : List String) ++ (Diary.dedupFirst [] ["z"]).filter
        (fun x => !(decide (x ∈ (["x", "y"] : List String))))).take 12 :=
  ⟨by decide, (c6_tag_merge ["x", "y"] ["z"]).2.2 (by decide)⟩

theorem data_mk (l : List Char) : (String.mk l).data = l := rfl

theorem mk_data (s : String) : String.mk s.data = s := rfl

theorem string_eq_of_data {a b : String} (h : a.data = b.data) : a = b := by
  cases a
  cases b
  cases h
  rfl

theorem b64Val_b64Char : ∀ n, n < 64 → Diary.b64Val (Diary.b64Char n) = some n := by
  decide

/-- Decoding inverts encoding on byte lists. -/
theorem b64Decode_encode : ∀ (bs : List Nat), (∀ x ∈ bs, x < 256) →
    Diary.b64Decode (Diary.b64Encode bs) = bs
  | [], _ => rfl
  | [a], h => by
    have ha : a < 256 := h a (by simp)
    simp only [Diary.b64Encode, Diary.b64Decode, List.filterMap_cons, List.filterMap_nil,
      b64Val_b64Char (a / 4) (by omega),
      b64Val_b64Char (a % 4 * 16) (by omega)]
    simp only [Diary.b64Pack]
    congr 1
    omega
  | [a, b], h => by
    have ha : a < 256 := h a (by simp)
    have hb : b < 256 := h b (by simp)
    simp only [Diary.b64Encode, Diary.b64Decode, List.filterMap_cons, List.filterMap_nil,
      b64Val_b64Char (a / 4) (by omega),
      b64Val_b64Char (a % 4 * 16 + b / 16) (by omega),
      b64Val_b64Char (b % 16 * 4) (by omega)]
    simp only [Diary.b64Pack]
    have e1 : a / 4 * 4 + (a % 4 * 16 + b / 16) / 16 = a := by omega
    have e2 : (a % 4 * 16 + b / 16) % 16 * 16 + b % 16 * 4 / 4 = b := by omega
    rw [e1, e2]
  | a :: b :: c :: rest, h => by
    have ha : a < 256 := h a (by simp)
    have hb : b < 256 := h b (by simp)
    have hc : c < 256 := h c (by simp)
    have ih := b64Decode_encode rest (fun x hx => h x (by simp [hx]))
    simp only [Diary.b64Decode] at ih
    simp only [Diary.b64Encode, Diary.b64Decode, List.filterMap_cons,
      b64Val_b64Char (a / 4) (by omega),
      b64Val_b64Char (a % 4 * 16 + b / 16) (by omega),
      b64Val_b64Char (b % 16 * 4 + c / 64) (by omega),
      b64Val_b64Char (c % 64) (by omega)]
    simp only [Diary.b64Pack]
    have e1 : a / 4 * 4 + (a % 4 * 16 + b / 16) / 16 = a := by omega
    have e2 : (a % 4 * 16 + b / 16) % 16 * 16 + (b % 16 * 4 + c / 64) / 4 = b := by omega
    have e3 : (b % 16 * 4 + c / 64) % 4 * 64 + c % 64 = c := by omega
    rw [e1, e2, e3, ih]

theorem bytesStr_strBytes (s : String) : Diary.bytesStr (Diary.strBytes s) = s := by
  simp only [Diary.bytesStr, Diary.strBytes, List.map_map]
  have hfun : (Char.ofNat ∘ Char.toNat) = (id : Char → Char) :=
    funext fun c => Char.ofNat_toNat c
  rw [hfun, List.map_id]

theorem splitColon_ne_nil : ∀ (l : List Char), Diary.splitColon l ≠ []
  | [] => by simp [Diary.splitColon]
  | c :: rest => by
    simp only [Diary.splitColon]
    split
    · simp
    · cases h : Diary.splitColon rest <;> simp

/-- Joining the groups of `splitColon` back with colons. -/
def joinColon : List (List Char) → List Char
  | [] => []
  | [g] => g
  | g :: gs => g ++ ':' :: joinColon gs

theorem joinColon_splitColon : ∀ (l : List Char), joinColon (Diary.splitColon l) = l
  | [] => rfl
  | c :: rest => by
    simp only [Diary.splitColon]
    by_cases hc : c = ':'
    · rw [if_pos hc]
      cases h : Diary.splitColon rest with
      | nil => exact absurd h (splitColon_ne_nil rest)
      | cons g gs =>
        have ih := joinColon_splitColon rest
        rw [h] at ih
        simp only [joinColon]
        rw [ih, hc]
        rfl
    · rw [if_neg hc]
      cases h : Diary.splitColon rest with
      | nil => exact absurd h (splitColon_ne_nil rest)
      | cons g gs =>
        have ih := joinColon_splitColon rest
        rw [h] at ih
        cases gs with
        | nil =>
          simp only [joinColon] at ih ⊢
          rw [ih]
        | cons g2 gs2 =>
          simp only [joinColon] at ih ⊢
          rw [List.cons_append, ih]

theorem splitColon_no_colon : ∀ (l : List Char) (g : List Char),
    g ∈ Diary.splitColon l → (':' : Char) ∉ g
  | [], g => by
    simp only [Diary.splitColon, List.mem_singleton]
    rintro rfl
    simp
  | c :: rest, g => by
    simp only [Diary.splitColon]
    by_cases hc : c = ':'
    · rw [if_pos hc, List.mem_cons]
      rintro (rfl | hmem)
      · simp
      · exact splitColon_no_colon rest g hmem
    · rw [if_neg hc]
      cases h : Diary.splitColon rest with
      | nil => exact absurd h (splitColon_ne_nil rest)
      | cons g0 gs =>
        rw [List.mem_cons]
        rintro (rfl | hmem)
        · intro hin
          rcases List.mem_cons.mp hin with h1 | h1
          · exact hc h1.symm
          · exact splitColon_no_colon rest g0 (h ▸ List.mem_cons_self g0 gs) h1
        · exact splitColon_no_colon rest g (h ▸ List.mem_cons_of_mem g0 hmem)

theorem splitColon_of_no_colon : ∀ (l : List Char), (':' : Char) ∉ l →
    Diary.splitColon l = [l]
  | [], _ => rfl
  | c :: rest, h => by
    simp only [List.mem_cons, not_or] at h
    have hc : ¬c = ':' := fun hx => h.1 hx.symm
    simp only [Diary.splitColon, if_neg hc, splitColon_of_no_colon rest h.2]

theorem splitColon_append : ∀ (x : List Char) (rest : List Char), (':' : Char) ∉ x →
    Diary.splitColon (x ++ ':' :: rest) = x :: Diary.splitColon rest
  | [], rest, _ => by simp [Diary.splitColon]
  | c :: x, rest, h => by
    simp only [List.mem_cons, not_or] at h
    have hc : ¬c = ':' := fun hx => h.1 hx.symm
    simp only [List.cons_append, Diary.splitColon, List.append_eq, if_neg hc,
      splitColon_append x rest h.2]

/-- The three-field characterization of `split(":")`. -/
theorem splitColon_eq_three_iff (l x y z : List Char) :
    Diary.splitColon l = [x, y, z] ↔
      l = x ++ ':' :: (y ++ ':' :: z) ∧
      (':' : Char) ∉ x ∧ (':' : Char) ∉ y ∧ (':' : Char) ∉ z := by
  constructor
  · intro h
    have hx : (':' : Char) ∉ x := splitColon_no_colon l x (h ▸ by simp)
    have hy : (':' : Char) ∉ y := splitColon_no_colon l y (h ▸ by simp)
    have hz : (':' : Char) ∉ z := splitColon_no_colon l z (h ▸ by simp)
    refine ⟨?_, hx, hy, hz⟩
    have hj := joinColon_splitColon l
    rw [h] at hj
    simp only [joinColon] at hj
    rw [← hj]
  · rintro ⟨rfl, hx, hy, hz⟩
    rw [splitColon_append x _ hx, splitColon_append y z hy, splitColon_of_no_colon z hz]

/-- C4: `verifyAdminToken` accepts exactly the tokens whose decoded form is
`admin:ts:mac` with `mac` the keyed digest of `admin:ts`, and in
particular accepts every token produced by `signAdminToken`; on any other
decoded shape (wrong field count, non-admin role, non-matching MAC) it
returns false without raising.  The hypotheses record that the issuance
timestamp is a digit string (colon-free, single-byte characters) and that
the digests are hex strings (colon-free, single-byte characters). -/
theorem c4_admin_token (c : Diary.Crypto) (ts : String)
    (hts : (':' : Char) ∉ ts.data)
    (hts8 : ∀ ch ∈ ts.data, ch.toNat < 256)
    (hmacColon : ∀ s, (':' : Char) ∉ (c.hmacHex s).data)
    (hmac8 : ∀ s, ∀ ch ∈ (c.hmacHex s).data, ch.toNat < 256) :
    Diary.verifyAdminToken c (Diary.signAdminToken c ts) = true ∧
    (∀ token, Diary.verifyAdminToken c token = true ↔
      ∃ tsf mac, Diary.bytesStr (Diary.b64Decode token.data) =
          "admin:" ++ tsf ++ ":" ++ mac ∧
        (':' : Char) ∉ tsf.data ∧ (':' : Char) ∉ mac.data ∧
        mac = c.hmacHex ("admin:" ++ tsf)) := by
  have hiff : ∀ token, Diary.verifyAdminToken c token = true ↔
      ∃ tsf mac, Diary.bytesStr (Diary.b64Decode token.data) =
          "admin:" ++ tsf ++ ":" ++ mac ∧
        (':' : Char) ∉ tsf.data ∧ (':' : Char) ∉ mac.data ∧
        mac = c.hmacHex ("admin:" ++ tsf) := by
    intro token
    constructor
    · intro h
      simp only [Diary.verifyAdminToken] at h
      split at h
      · rename_i role tsf mac heq
        by_cases hrole : role = "admin"
        · rw [if_neg (by simp [hrole])] at h
          have hmac : mac = c.hmacHex (role ++ ":" ++ tsf) := by
            have := of_decide_eq_true (by
              simpa [Diary.timingSafeEqStr] using h)
            exact this
          obtain ⟨l1, l2, l3, hsp, h1, h2, h3⟩ :
              ∃ l1 l2 l3,
                Diary.splitColon (Diary.bytesStr (Diary.b64Decode token.data)).data =
                  [l1, l2, l3] ∧ String.mk l1 = role ∧ String.mk l2 = tsf ∧
                String.mk l3 = mac := by
            rcases hsp : Diary.splitColon (Diary.bytesStr (Diary.b64Decode token.data)).data
              with _ | ⟨a1, _ | ⟨a2, _ | ⟨a3, _ | ⟨a4, tl⟩⟩⟩⟩ <;>
              rw [hsp] at heq <;> simp only [List.map_cons, List.map_nil] at heq
            · cases heq
            · cases heq
            · cases heq
            · cases heq
              exact ⟨a1, a2, a3, rfl, rfl, rfl, rfl⟩
            · cases heq
          rcases (splitColon_eq_three_iff _ l1 l2 l3).mp hsp with ⟨hdata, hc1, hc2, hc3⟩
          refine ⟨tsf, mac, ?_, ?_, ?_, ?_⟩
          · apply string_eq_of_data
            rw [hdata]
            have hl1 : l1 = "admin".data := by
              rw [← h1] at hrole
              exact congrArg String.data hrole
            rw [hl1, ← h2, ← h3]
            simp only [String.data_append, data_mk]
            simp
          · rw [← h2]
            exact hc2
          · rw [← h3]
            exact hc3
          · rw [hmac, hrole]
            rfl
        · rw [if_pos (by simp [hrole])] at h
          cases h
      · cases h
    · rintro ⟨tsf, mac, hdec, hcts, hcmac, hm⟩
      have hdata : (Diary.bytesStr (Diary.b64Decode token.data)).data =
          "admin".data ++ ':' :: (tsf.data ++ ':' :: mac.data) := by
        rw [hdec]
        simp only [String.data_append]
        simp
      have hadm : (':' : Char) ∉ ("admin" : String).data := by decide
      have hsp : Diary.splitColon (Diary.bytesStr (Diary.b64Decode token.data)).data =
          ["admin".data, tsf.data, mac.data] := by
        rw [hdata, splitColon_append _ _ hadm, splitColon_append _ _ hcts,
          splitColon_of_no_colon _ hcmac]
      simp only [Diary.verifyAdminToken, hsp, List.map_cons, List.map_nil, mk_data]
      have hadmeq : String.mk ("admin" : String).data = "admin" := mk_data _
      rw [hadmeq]
      rw [if_neg (by simp)]
      simp only [Diary.timingSafeEqStr, hm]
      have hfold : ("admin" ++ ":" ++ tsf : String) = "admin:" ++ tsf := rfl
      rw [hfold]
      simp
  refine ⟨?_, hiff⟩
  rw [hiff]
  have hpayload8 : ∀ ch ∈ ("admin:" ++ ts ++ ":" ++ c.hmacHex ("admin:" ++ ts)).data,
      ch.toNat < 256 := by
    intro ch hch
    simp only [String.data_append, List.mem_append] at hch
    rcases hch with ((hch | hch) | hch) | hch
    · have : ch ∈ ("admin:" : String).data := hch
      fin_cases this <;> decide
    · exact hts8 ch hch
    · have : ch ∈ (":" : String).data := hch
      fin_cases this
      decide
    · exact hmac8 _ ch hch
  have hdec : Diary.bytesStr (Diary.b64Decode (Diary.signAdminToken c ts).data) =
      "admin:" ++ ts ++ ":" ++ c.hmacHex ("admin:" ++ ts) := by
    have hdat : (Diary.signAdminToken c ts).data =
        Diary.b64Encode (Diary.strBytes
          ("admin:" ++ ts ++ ":" ++ c.hmacHex ("admin:" ++ ts))) := rfl
    rw [hdat, b64Decode_encode, bytesStr_strBytes]
    intro x hx
    simp only [Diary.strBytes, List.mem_map] at hx
    obtain ⟨ch, hch, rfl⟩ := hx
    exact hpayload8 ch hch
  exact ⟨ts, c.hmacHex ("admin:" ++ ts), hdec, hts, hmacColon _, rfl⟩

theorem c4_admin_token_witness :
    Diary.verifyAdminToken ⟨fun _ => "ab"⟩
      (Diary.signAdminToken ⟨fun _ => "ab"⟩ "1717171717171") = true :=
  (c4_admin_token ⟨fun _ => "ab"⟩ "1717171717171" (by decide) (by decide)
    (fun s => by
      show (':' : Char) ∉ ("ab" : String).data
      decide)
    (fun s => by
      show ∀ ch ∈ ("ab" : String).data, ch.toNat < 256
      decide)).1

end HateServer
